import Mathlib

/-!
Shallow embedding of the testwang cycle-execution and result-aggregation
engine (src/testwang.py), together with theorems settling the frozen claims
about it.

Modelling conventions:
- Python strings are Lean String values; str.upper is modelled per character.
- Python floats (durations, consistency percentages) are modelled as exact
  rationals; the float format spec .0f rounds half to even, modelled by
  roundHalfEven below.
- The filesystem probed by the spec translator is modelled as the list of
  path strings for which os.path.exists and os.path.isfile both hold.
- The external pytest invocation of one cycle is modelled by a map from
  cycle index to the parsed result map of that cycle, i.e. a function
  from ℕ to String to Option ResultForOneTestRun.
- Mutable dicts keyed by strings are modelled as total functions from
  String, with the empty history as default value.
-/

namespace Testwang

/-- One cycle result for one test: class ResultForOneTestRun of the source
(outcome string and duration in seconds). -/
structure ResultForOneTestRun where
  outcome : String
  duration : ℚ
  deriving DecidableEq

/-- The per-outcome frequencies of a history, one entry per distinct outcome:
Counter(result.outcome for result in self).values() of the source. -/
def outcome_counts (l : List ResultForOneTestRun) : List ℕ :=
  ((l.map (fun r => r.outcome)).dedup).map
    (fun o => (l.map (fun r => r.outcome)).count o)

/-- Largest per-outcome frequency: list(sorted(outcome_counts.values()))[-1]
of the source, i.e. the maximum of the counts. -/
def top_freq (l : List ResultForOneTestRun) : ℕ :=
  (outcome_counts l).foldr max 0

/-- Sum of the per-outcome frequencies: sum(outcome_counts.values()). -/
def total_freq (l : List ResultForOneTestRun) : ℕ :=
  (outcome_counts l).sum

/-- ResultsForOneTest.outcome_consistency of the source: 0 for an empty
history, otherwise top frequency over total frequency. -/
def outcome_consistency (l : List ResultForOneTestRun) : ℚ :=
  if outcome_counts l = [] then 0
  else (top_freq l : ℚ) / (total_freq l : ℚ)

/-- Rounding of the Python float format spec .0f: round half to even. -/
def roundHalfEven (q : ℚ) : ℤ :=
  if q - ⌊q⌋ < 1/2 then ⌊q⌋
  else if 1/2 < q - ⌊q⌋ then ⌊q⌋ + 1
  else if ⌊q⌋ % 2 = 0 then ⌊q⌋ else ⌊q⌋ + 1

/-- ResultsForOneTest.overall_outcome of the source: NOT RUN for an empty
history, the shared outcome when all cycle outcomes agree, otherwise the
MIXED form showing the rounded consistency percentage. -/
def overall_outcome (l : List ResultForOneTestRun) : String :=
  match l with
  | [] => "NOT RUN"
  | r :: _ =>
    if l.all (fun s => s.outcome == r.outcome) then r.outcome
    else "MIXED (" ++ toString (roundHalfEven (100 * outcome_consistency l)) ++ "%)"

/-- ResultsForOneTest.total_duration of the source. -/
def total_duration (l : List ResultForOneTestRun) : ℚ :=
  (l.map (fun r => r.duration)).sum

/-- ResultsForOneTest.mean_duration of the source: total over cycle count,
0 for an empty history. -/
def mean_duration (l : List ResultForOneTestRun) : ℚ :=
  if l.length = 0 then 0 else total_duration l / (l.length : ℚ)

theorem roundHalfEven_near (q : ℚ) : |(roundHalfEven q : ℚ) - q| ≤ 1/2 := by
  have h0 : ((⌊q⌋ : ℤ) : ℚ) ≤ q := Int.floor_le q
  have h1 : q < ⌊q⌋ + 1 := Int.lt_floor_add_one q
  unfold roundHalfEven
  split_ifs with ha hb hc
  · rw [abs_sub_comm, abs_of_nonneg (by linarith)]
    linarith
  · rw [abs_of_nonneg (by push_cast; linarith)]
    push_cast
    linarith
  · rw [abs_sub_comm, abs_of_nonneg (by linarith)]
    linarith
  · rw [abs_of_nonneg (by push_cast; linarith)]
    push_cast
    linarith

/-- A ResultsStore: the per-test histories, modelled as a total map from
test spec to its history list (empty history as default). -/
abbrev Results := String → List ResultForOneTestRun

/-- The tests printed by TestwangConsoleOutput.all_cycles_finished: the loop
over tests skips a test exactly when failure focus is set and its overall
outcome differs from FAILED. -/
def final_summary_tests (ff : Bool) (tests : List String) (res : Results) :
    List String :=
  tests.filter (fun t => !(ff && (overall_outcome (res t) != "FAILED")))

/-- The parsed result map of one cycle: dict from test name to its result,
modelled as a partial map. -/
abbrev CycleMap := String → Option ResultForOneTestRun

/-- The result-append loop of TestCyclesRunner.run_tests_cycle: for each
test in active order, if the cycle map has a result for it, append that
result to its history in the store. -/
def append_cycle_results (cmap : CycleMap) (active : List String) (res : Results) :
    Results :=
  active.foldl
    (fun acc u =>
      match cmap u with
      | some r => fun s => if s = u then acc u ++ [r] else acc s
      | none => acc)
    res

/-- TestCyclesRunner.run_tests_cycle: returns the empty active list at once
when there are no active tests; otherwise appends the results of this cycle and,
under failure focus, keeps exactly the active tests with no entry in the
cycle map or with an outcome other than PASSED. The runner subprocess and
its parsed output are abstracted into the given cycle map. -/
def run_tests_cycle (ff : Bool) (cmap : CycleMap) (active : List String)
    (res : Results) : List String × Results :=
  if active.isEmpty then ([], res)
  else
    let res2 := append_cycle_results cmap active res
    let active2 :=
      if ff then active.filter (fun u => (cmap u).all (fun r => r.outcome != "PASSED"))
      else active
    (active2, res2)

/-- The cycle loop of TestCyclesRunner.run_tests: the first argument is the
remaining number of requested cycles, then the active list, the results
store, the actual cycle counter and the current cycle index. The counter is
incremented only when the cycle left a nonempty active list; otherwise the
loop breaks. -/
def run_tests_from (ff : Bool) (maps : ℕ → CycleMap) :
    ℕ → List String → Results → ℕ → ℕ → Results × ℕ
  | 0, _, res, actual, _ => (res, actual)
  | fuel + 1, active, res, actual, cycle =>
    let step := run_tests_cycle ff (maps cycle) active res
    if step.1.isEmpty then (step.2, actual)
    else run_tests_from ff maps fuel step.1 step.2 (actual + 1) (cycle + 1)

/-- TestCyclesRunner.run_tests: histories start empty, the active list
starts as the full test list, and the loop runs over the requested cycles. -/
def run_tests (ff : Bool) (maps : ℕ → CycleMap) (requested_cycles : ℕ)
    (tests : List String) : Results × ℕ :=
  run_tests_from ff maps requested_cycles tests (fun _ => []) 0 0

/-- Instrumentation of the same loop: how many cycles actually invoke the
runner subprocess (run_tests_for_cycle is called by run_tests_cycle exactly
when the active list entering the cycle is nonempty). -/
def invoked_count_from (ff : Bool) (maps : ℕ → CycleMap) :
    ℕ → List String → Results → ℕ → ℕ
  | 0, _, _, _ => 0
  | fuel + 1, active, res, cycle =>
    if active.isEmpty then 0
    else
      let step := run_tests_cycle ff (maps cycle) active res
      1 + (if step.1.isEmpty then 0
           else invoked_count_from ff maps fuel step.1 step.2 (cycle + 1))

/-- Number of cycles that invoke the runner during a whole run. -/
def invoked_count (ff : Bool) (maps : ℕ → CycleMap) (requested_cycles : ℕ)
    (tests : List String) : ℕ :=
  invoked_count_from ff maps requested_cycles tests (fun _ => []) 0

/-- Instrumentation of the same loop: in how many invoked cycles a given
test is part of the active list, i.e. the number of cycles actually run for
that test. -/
def cycles_run_for_from (ff : Bool) (maps : ℕ → CycleMap) (t : String) :
    ℕ → List String → Results → ℕ → ℕ
  | 0, _, _, _ => 0
  | fuel + 1, active, res, cycle =>
    if active.isEmpty then 0
    else
      let here := if t ∈ active then 1 else 0
      let step := run_tests_cycle ff (maps cycle) active res
      here + (if step.1.isEmpty then 0
              else cycles_run_for_from ff maps t fuel step.1 step.2 (cycle + 1))

/-- Number of cycles actually run for a given test during a whole run. -/
def cycles_run_for (ff : Bool) (maps : ℕ → CycleMap) (requested_cycles : ℕ)
    (t : String) (tests : List String) : ℕ :=
  cycles_run_for_from ff maps t requested_cycles tests (fun _ => []) 0

/-- Spec-side description of the failure-focus retention rule, from the
claim wording: keep a test when it has no entry in the cycle map or when
its recorded outcome is not PASSED. -/
def failure_focus_keeps (cmap : CycleMap) (u : String) : Bool :=
  (cmap u).isNone || (cmap u).any (fun r => r.outcome != "PASSED")

/-- The cycle map of the C1 scenario: a single test t that fails in the
first invoked cycle and passes in the second. -/
def c1_cycle_maps : ℕ → CycleMap :=
  fun c u =>
    if u = "t" then
      (if c = 0 then some ⟨ "FAILED", 0⟩
       else if c = 1 then some ⟨ "PASSED", 0⟩
       else none)
    else none

/-- The cycle map of the C7 scenario: every cycle reports a FAILED result
for test t. -/
def c7_cycle_maps : ℕ → CycleMap :=
  fun _ u => if u = "t" then some ⟨ "FAILED", 0⟩ else none

/-- Python str.split with separator dot, used by the spec translator:
test_spec.split of the source. Modelled character-wise so that it is
kernel-evaluable; it agrees with the Python semantics for a one-character
separator, including empty segments. -/
def split_on_dot (s : String) : List String :=
  (s.data.splitOn '.').map String.mk

/-- Python str.upper, modelled character-wise. -/
def str_upper (s : String) : String :=
  String.mk (s.data.map Char.toUpper)

/-- sliced_prefixes of the source: the nonempty proper-or-full prefixes of a
list, shortest first (slicable slices from 1 up to the length). -/
def sliced_prefixes (l : List String) : List (List String) :=
  (List.range' 1 l.length).map (fun i => l.take i)

/-- One step of POSIX os.path.join: a component starting with the separator
resets the path; otherwise it is appended, inserting a separator unless the
path so far is empty or already ends with one. The startswith and endswith
checks are modelled on the character list of the string. -/
def ospath_join2 (path b : String) : String :=
  if b.data.head? = some '/' then b
  else if path = "" ∨ path.data.getLast? = some '/' then path ++ b
  else path ++ "/" ++ b

/-- POSIX os.path.join over a nonempty list of components, as called by
compute_test_spec_module_path_parts (the empty case never arises there). -/
def ospath_join (ps : List String) : String :=
  match ps with
  | [] => ""
  | h :: t => t.foldl ospath_join2 h

/-- The path probed on disk for a candidate module prefix:
os.path.join of the prefix parts with the .py suffix appended. -/
def probe_path (p : List String) : String :=
  ospath_join p ++ ".py"

/-- TestCollector.compute_test_spec_module_path_parts: the first (hence
shortest) sliced prefix whose probe path is an existing regular file; none
when there is no such prefix (the source then raises TestSpecModuleNotFound
carrying the identifier parts). The filesystem is modelled as the list fs of
path strings for which os.path.exists and os.path.isfile hold. -/
def compute_test_spec_module_path_parts (fs : List String) (parts : List String) :
    Option (List String) :=
  (sliced_prefixes parts).find? (fun p => fs.contains (probe_path p))

/-- TestCollector.convert_jenkins_test_spec_to_pytest_format: split the
identifier on dots, locate the module path prefix, and return the module
path joined with slashes plus .py, the separator, and the remaining parts
joined with the nested-selector separator. The error value carries the
identifier parts, as TestSpecModuleNotFound does. -/
def convert_jenkins_test_spec_to_pytest_format (fs : List String) (test_spec : String) :
    Except (List String) String :=
  match compute_test_spec_module_path_parts fs (split_on_dot test_spec) with
  | none => Except.error (split_on_dot test_spec)
  | some mp =>
      Except.ok (String.intercalate "/" mp ++ ".py" ++ "::" ++
        String.intercalate "::" ((split_on_dot test_spec).drop mp.length))

/-- JSON values, for the structured results document. -/
inductive Json where
  | null
  | bool (b : Bool)
  | num (q : ℚ)
  | str (s : String)
  | arr (elems : List Json)
  | obj (fields : List (String × Json))

/-- Lookup in a JSON object, modelling Python dict indexing (the decoded
object has unique keys). -/
def jlookup (fields : List (String × Json)) (key : String) : Option Json :=
  (fields.find? (fun kv => kv.1 == key)).map (fun kv => kv.2)

/-- isinstance(section, dict) of the source. -/
def Json.isDict : Json → Bool
  | Json.obj _ => true
  | _ => false

/-- A JSON value read as a string, failing on any other shape. -/
def Json.asStr : Json → Option String
  | Json.str s => some s
  | _ => none

/-- section.get of the duration key with default 0, followed by use as a
number in the duration sum: absent duration contributes 0, a numeric value
contributes itself, and a non-numeric value makes the sum fail (Python would
raise a TypeError when summing it). -/
def section_duration : Json → Option ℚ
  | Json.obj fields =>
      (match jlookup fields "duration" with
       | none => some 0
       | some (Json.num q) => some q
       | some _ => none)
  | _ => none

/-- Spec-side description of one section's contribution, from the claim
wording: the duration field of the object-valued field, or 0 when it lacks
one. -/
def spec_section_duration : Json → ℚ
  | Json.obj fields =>
      (match jlookup fields "duration" with
       | some (Json.num q) => q
       | _ => 0)
  | _ => 0

/-- TestCyclesRunner.parse_json_results_one_test: the name and the outcome
label (upper-cased) of the entry, with duration the sum of the duration
fields of the object-valued fields of the entry. The name and outcome are
read as strings per the results-file schema; a missing name or outcome key
(a KeyError in the source) or a non-numeric duration makes the parse fail. -/
def parse_json_results_one_test (entry : List (String × Json)) :
    Option (String × ResultForOneTestRun) :=
  match (jlookup entry "name").bind Json.asStr,
        (jlookup entry "outcome").bind Json.asStr,
        ((entry.map (fun kv => kv.2)).filter Json.isDict).mapM section_duration with
  | some name, some outcome, some durs => some (name, ⟨str_upper outcome, durs.sum⟩)
  | _, _, _ => none

/-- The C6 example entry: two sections, each carrying duration 1.5. -/
def c6_example_entry : List (String × Json) :=
  [( "name", Json.str "t"), ( "outcome", Json.str "passed"),
   ( "setup", Json.obj [( "duration", Json.num (3/2))]),
   ( "call", Json.obj [( "duration", Json.num (3/2))])]

/-- Notifications emitted by the orchestration layer that the claims
mention. -/
inductive Event where
  | no_tests_found
  | all_cycles_finished
  deriving DecidableEq

/-- Errors that can escape the orchestration layer: the module-resolution
exception of the spec translator, and the TypeError raised when the result
of collect_and_run_tests, which is None, is unpacked into three values. -/
inductive RunError where
  | moduleNotFound (parts : List String)
  | typeError
  deriving DecidableEq

/-- How the process run ends: a deliberate sys.exit with a code, a crash
from an uncaught exception, or a normal return. -/
inductive MainOutcome where
  | exitCode (code : ℕ)
  | uncaughtTypeError
  | normal
  deriving DecidableEq

/-- TestCollector.collect_tests restricted to its algorithmic part: convert
every raw identifier line (file reading is the excluded boundary); the first
unresolvable identifier aborts the collection with its parts. -/
def collect_tests (fs : List String) (raw : List String) :
    Except (List String) (List String) :=
  raw.mapM (convert_jenkins_test_spec_to_pytest_format fs)

/-- Testwanger.collect_and_run_tests: collect, and on an empty collection
notify no_tests_found and return None (modelled as the none payload);
otherwise run the cycles and return the tests, results and actual count. -/
def collect_and_run_tests (fs raw : List String) (ff : Bool)
    (maps : ℕ → CycleMap) (requested : ℕ) :
    Except (List String) (List Event × Option (List String × Results × ℕ)) :=
  match collect_tests fs raw with
  | Except.error parts => Except.error parts
  | Except.ok tests =>
      if tests.isEmpty then Except.ok ([Event.no_tests_found], none)
      else Except.ok ([], some (tests, run_tests ff maps requested tests))

/-- Testwanger.testwang: unpack the triple returned by
collect_and_run_tests; unpacking the None payload raises a TypeError, and
otherwise the all_cycles_finished notification is emitted. -/
def testwang (fs raw : List String) (ff : Bool) (maps : ℕ → CycleMap)
    (requested : ℕ) :
    List Event × Except RunError (List String × Results × ℕ) :=
  match collect_and_run_tests fs raw ff maps requested with
  | Except.error parts => ([], Except.error (RunError.moduleNotFound parts))
  | Except.ok (evs, none) => (evs, Except.error RunError.typeError)
  | Except.ok (evs, some x) => (evs ++ [Event.all_cycles_finished], Except.ok x)

/-- main of the source: sys.exit 1 exactly on TestSpecModuleNotFound; the
TypeError is not caught, so it crashes the process. -/
def main_outcome (fs raw : List String) (ff : Bool) (maps : ℕ → CycleMap)
    (requested : ℕ) : MainOutcome :=
  match (testwang fs raw ff maps requested).2 with
  | Except.error (RunError.moduleNotFound _) => MainOutcome.exitCode 1
  | Except.error RunError.typeError => MainOutcome.uncaughtTypeError
  | Except.ok _ => MainOutcome.normal

theorem mem_isEmpty_false {t : String} {l : List String} (h : t ∈ l) :
    l.isEmpty = false := by
  cases l with
  | nil => cases h
  | cons a l => rfl

theorem append_cycle_results_apply (cmap : CycleMap) (t : String) :
    ∀ (active : List String) (res : Results),
      append_cycle_results cmap active res t =
        res t ++ (match cmap t with
          | some r => List.replicate (active.count t) r
          | none => []) := by
  intro active
  induction active with
  | nil =>
    intro res
    cases h : cmap t <;> simp [append_cycle_results, h]
  | cons u us ih =>
    intro res
    rw [show append_cycle_results cmap (u :: us) res
        = append_cycle_results cmap us
            (match cmap u with
             | some r => fun s => if s = u then res u ++ [r] else res s
             | none => res) from rfl]
    rw [ih]
    by_cases hu : t = u
    · subst hu
      cases h : cmap t with
      | none => simp [h]
      | some r =>
        simp only [h, if_pos rfl, List.count_cons_self, List.append_assoc,
          List.singleton_append, List.replicate_succ]
        simp
    · rw [List.count_cons_of_ne hu]
      cases hcu : cmap u with
      | none => rfl
      | some r => simp only [hcu, if_neg hu]

theorem run_tests_cycle_snd (ff : Bool) (cmap : CycleMap) (active : List String)
    (res : Results) (hA : active.isEmpty = false) :
    (run_tests_cycle ff cmap active res).2 = append_cycle_results cmap active res := by
  rw [run_tests_cycle, if_neg (by simp [hA])]

theorem run_tests_cycle_fst (ff : Bool) (cmap : CycleMap) (active : List String)
    (res : Results) (hA : active.isEmpty = false) :
    (run_tests_cycle ff cmap active res).1 =
      if ff then active.filter (fun u => (cmap u).all (fun r => r.outcome != "PASSED"))
      else active := by
  rw [run_tests_cycle, if_neg (by simp [hA])]

theorem run_tests_cycle_empty (ff : Bool) (cmap : CycleMap) (res : Results) :
    run_tests_cycle ff cmap [] res = ([], res) := rfl

theorem run_tests_actual_vs_invoked (ff : Bool) (maps : ℕ → CycleMap) :
    ∀ (fuel : ℕ) (active : List String) (res : Results) (actual cycle : ℕ),
      (run_tests_from ff maps fuel active res actual cycle).2
          = actual + invoked_count_from ff maps fuel active res cycle
      ∨ (run_tests_from ff maps fuel active res actual cycle).2 + 1
          = actual + invoked_count_from ff maps fuel active res cycle := by
  intro fuel
  induction fuel with
  | zero =>
    intro active res actual cycle
    left
    simp [run_tests_from, invoked_count_from]
  | succ n ih =>
    intro active res actual cycle
    by_cases hA : active.isEmpty = true
    · have hnil : active = [] := by
        cases active with
        | nil => rfl
        | cons a l => simp at hA
      subst hnil
      left
      simp [run_tests_from, invoked_count_from, run_tests_cycle_empty]
    · have hA2 : active.isEmpty = false := by simpa using hA
      simp only [run_tests_from, invoked_count_from, if_neg hA]
      cases hS : (run_tests_cycle ff (maps cycle) active res).1.isEmpty with
      | true =>
        right
        simp [hS]
      | false =>
        simp only [hS, Bool.false_eq_true, if_false]
        rcases ih (run_tests_cycle ff (maps cycle) active res).1
            (run_tests_cycle ff (maps cycle) active res).2 (actual + 1) (cycle + 1)
          with h | h
        · left
          omega
        · right
          omega

theorem run_tests_from_never_reported (maps : ℕ → CycleMap) (t : String)
    (hnone : ∀ c, maps c t = none) :
    ∀ (fuel : ℕ) (active : List String) (res : Results) (actual cycle : ℕ),
      t ∈ active →
      (run_tests_from true maps fuel active res actual cycle).1 t = res t
      ∧ invoked_count_from true maps fuel active res cycle = fuel := by
  intro fuel
  induction fuel with
  | zero =>
    intro active res actual cycle hmem
    exact ⟨rfl, rfl⟩
  | succ n ih =>
    intro active res actual cycle hmem
    have hA : active.isEmpty = false := mem_isEmpty_false hmem
    have hkeep : ((maps cycle t).all fun r => r.outcome != "PASSED") = true := by
      rw [hnone cycle]
      rfl
    have hmem2 : t ∈ active.filter (fun u => (maps cycle u).all fun r => r.outcome != "PASSED") :=
      List.mem_filter.mpr ⟨hmem, hkeep⟩
    have hstep1 : (run_tests_cycle true (maps cycle) active res).1
        = active.filter (fun u => (maps cycle u).all fun r => r.outcome != "PASSED") := by
      rw [run_tests_cycle_fst true (maps cycle) active res hA, if_pos rfl]
    have hmem3 : t ∈ (run_tests_cycle true (maps cycle) active res).1 := by
      rw [hstep1]
      exact hmem2
    have hS : (run_tests_cycle true (maps cycle) active res).1.isEmpty = false :=
      mem_isEmpty_false hmem3
    have hstep2 : (run_tests_cycle true (maps cycle) active res).2 t = res t := by
      rw [run_tests_cycle_snd true (maps cycle) active res hA,
        append_cycle_results_apply, hnone cycle]
      simp
    have ihres := ih (run_tests_cycle true (maps cycle) active res).1
      (run_tests_cycle true (maps cycle) active res).2 (actual + 1) (cycle + 1) hmem3
    constructor
    · simp only [run_tests_from, hS, Bool.false_eq_true, if_false]
      rw [ihres.1, hstep2]
    · simp only [invoked_count_from, if_neg (by simp [hA] : ¬ active.isEmpty = true),
        hS, Bool.false_eq_true, if_false]
      rw [ihres.2]
      omega

theorem history_length_le (ff : Bool) (maps : ℕ → CycleMap) (t : String) :
    ∀ (fuel : ℕ) (active : List String) (res : Results) (actual cycle : ℕ),
      active.Nodup →
      ((run_tests_from ff maps fuel active res actual cycle).1 t).length
        ≤ (res t).length + cycles_run_for_from ff maps t fuel active res cycle := by
  intro fuel
  induction fuel with
  | zero =>
    intro active res actual cycle hnodup
    simp [run_tests_from, cycles_run_for_from]
  | succ n ih =>
    intro active res actual cycle hnodup
    by_cases hA : active.isEmpty = true
    · have hnil : active = [] := by
        cases active with
        | nil => rfl
        | cons a l => simp at hA
      subst hnil
      simp [run_tests_from, cycles_run_for_from, run_tests_cycle_empty]
    · have hA2 : active.isEmpty = false := by simpa using hA
      have hcount : active.count t ≤ (if t ∈ active then 1 else 0) := by
        by_cases hmem : t ∈ active
        · rw [if_pos hmem]
          exact List.nodup_iff_count_le_one.mp hnodup t
        · rw [if_neg hmem]
          exact Nat.le_of_eq (List.count_eq_zero.mpr hmem)
      have hlen : ((run_tests_cycle ff (maps cycle) active res).2 t).length
          ≤ (res t).length + (if t ∈ active then 1 else 0) := by
        rw [run_tests_cycle_snd ff (maps cycle) active res hA2,
          append_cycle_results_apply]
        cases h : maps cycle t with
        | none => simp
        | some r =>
          simp only [List.length_append, List.length_replicate]
          omega
      have hnodup2 : (run_tests_cycle ff (maps cycle) active res).1.Nodup := by
        rw [run_tests_cycle_fst ff (maps cycle) active res hA2]
        by_cases hff : ff = true
        · rw [if_pos hff]
          exact hnodup.filter _
        · rw [if_neg hff]
          exact hnodup
      simp only [run_tests_from, cycles_run_for_from, if_neg hA]
      cases hS : (run_tests_cycle ff (maps cycle) active res).1.isEmpty with
      | true =>
        simp only [hS, if_true]
        omega
      | false =>
        simp only [hS, Bool.false_eq_true, if_false]
        have ihres := ih (run_tests_cycle ff (maps cycle) active res).1
          (run_tests_cycle ff (maps cycle) active res).2 (actual + 1) (cycle + 1) hnodup2
        omega

end Testwang

open Testwang

/-- Claim C1 counterexample: with requestedCycles 5, failure focus on, and a
single test failing in cycle 1 then passing in cycle 2, the runner is
invoked in two cycles but the returned actual cycle count is 1, not 2. -/
theorem c1_counterexample :
    (run_tests true c1_cycle_maps 5 [ "t"]).2 = 1
  ∧ invoked_count true c1_cycle_maps 5 [ "t"] = 2
  ∧ (run_tests true c1_cycle_maps 5 [ "t"]).2 ≠ 2 :=
  ⟨by decide, by decide, by decide⟩

/-- Claim C1 amended: actualCyclesRun counts only the invoked cycles whose
resulting active set is nonempty, so the number of cycles that invoke the
runner is either actualCyclesRun or actualCyclesRun plus one (the final
invoked cycle is uncounted exactly when it empties the active set); in the
example scenario actualCyclesRun is 1. -/
theorem c1_actual_cycles_amended :
    (∀ (ff : Bool) (maps : ℕ → CycleMap) (n : ℕ) (tests : List String),
      invoked_count ff maps n tests = (run_tests ff maps n tests).2
      ∨ invoked_count ff maps n tests = (run_tests ff maps n tests).2 + 1)
  ∧ (run_tests true c1_cycle_maps 5 [ "t"]).2 = 1 := by
  constructor
  · intro ff maps n tests
    have h := run_tests_actual_vs_invoked ff maps n tests (fun _ => []) 0 0
    simp only [Nat.zero_add] at h
    rcases h with h | h
    · left
      simp only [run_tests, invoked_count]
      omega
    · right
      simp only [run_tests, invoked_count]
      omega
  · decide

theorem overall_outcome_cons_of_all (r : ResultForOneTestRun)
    (t : List ResultForOneTestRun)
    (h : ((r :: t).all fun s => s.outcome == r.outcome) = true) :
    overall_outcome (r :: t) = r.outcome := by
  simp only [overall_outcome, h, if_true]

theorem overall_outcome_cons_of_mixed (r : ResultForOneTestRun)
    (t : List ResultForOneTestRun)
    (h : ((r :: t).all fun s => s.outcome == r.outcome) = false) :
    overall_outcome (r :: t) =
      "MIXED (" ++ toString (roundHalfEven (100 * outcome_consistency (r :: t))) ++ "%)" := by
  simp only [overall_outcome, h, Bool.false_eq_true, if_false]

/-- Claim C5: overall_outcome is NOT RUN when the history is empty, equals
the shared outcome when all entries have the same outcome, and otherwise is
the MIXED form whose percentage is 100 times the consistency rounded to a
nearest integer; in particular PASSED, PASSED, FAILED yields MIXED (67%). -/
theorem c5_overall_outcome (l : List ResultForOneTestRun) :
    (l = [] → overall_outcome l = "NOT RUN")
  ∧ (∀ o : String, l ≠ [] → (∀ r ∈ l, r.outcome = o) → overall_outcome l = o)
  ∧ (¬ (∀ r ∈ l, ∀ s ∈ l, r.outcome = s.outcome) →
      overall_outcome l =
          "MIXED (" ++ toString (roundHalfEven (100 * outcome_consistency l)) ++ "%)"
        ∧ |(roundHalfEven (100 * outcome_consistency l) : ℚ)
            - 100 * outcome_consistency l| ≤ 1/2)
  ∧ overall_outcome [⟨ "PASSED", 1⟩, ⟨ "PASSED", 1⟩, ⟨ "FAILED", 1⟩] = "MIXED (67%)" := by
  refine ⟨?_, ?_, ?_, ?_⟩
  · intro h
    subst h
    rfl
  · intro o hne hall
    match l, hne with
    | r :: t, _ =>
      have hr : r.outcome = o := hall r (List.mem_cons_self r t)
      have hb : ((r :: t).all fun s => s.outcome == r.outcome) = true := by
        rw [List.all_eq_true]
        intro s hs
        have := hall s hs
        simp [this, hr]
      rw [overall_outcome_cons_of_all r t hb, hr]
  · intro hnot
    match l, hnot with
    | [], hnot => simp at hnot
    | r :: t, hnot =>
      have hb : ((r :: t).all fun s => s.outcome == r.outcome) = false := by
        cases hball : ((r :: t).all fun s => s.outcome == r.outcome) with
        | false => rfl
        | true =>
          rw [List.all_eq_true] at hball
          have ht := hball
          exfalso
          apply hnot
          intro a ha b hb
          have h1 : (a.outcome == r.outcome) = true := ht a ha
          have h2 : (b.outcome == r.outcome) = true := ht b hb
          rw [beq_iff_eq] at h1 h2
          rw [h1, h2]
      exact ⟨overall_outcome_cons_of_mixed r t hb, roundHalfEven_near _⟩
  · have h1 : outcome_counts [⟨ "PASSED", 1⟩, ⟨ "PASSED", 1⟩, ⟨ "FAILED", 1⟩] = [2, 1] := by
      decide
    have hc : outcome_consistency [⟨ "PASSED", 1⟩, ⟨ "PASSED", 1⟩, ⟨ "FAILED", 1⟩]
        = 2/3 := by
      have htop : top_freq [⟨ "PASSED", 1⟩, ⟨ "PASSED", 1⟩, ⟨ "FAILED", 1⟩] = 2 := by decide
      have htot : total_freq [⟨ "PASSED", 1⟩, ⟨ "PASSED", 1⟩, ⟨ "FAILED", 1⟩] = 3 := by decide
      rw [outcome_consistency, if_neg (by rw [h1]; simp), htop, htot]
      norm_num
    have hb : ((([⟨ "PASSED", 1⟩, ⟨ "PASSED", 1⟩, ⟨ "FAILED", 1⟩] :
          List ResultForOneTestRun).all
        fun s => s.outcome == (⟨ "PASSED", 1⟩ : ResultForOneTestRun).outcome) = false) := by
      decide
    rw [overall_outcome_cons_of_mixed _ _ hb, hc]
    have hfl : ⌊(100 * (2/3 : ℚ))⌋ = 66 := by
      rw [Int.floor_eq_iff]
      constructor <;> norm_num
    have hr : roundHalfEven (100 * (2/3 : ℚ)) = 67 := by
      rw [roundHalfEven, hfl, if_neg (by norm_num), if_pos (by norm_num)]
      decide
    rw [hr]
    rfl

/-- Claim C5 witness: the theorem applied at the empty history and at a
history of three PASSED entries. -/
theorem c5_overall_outcome_witness :
    overall_outcome ([] : List ResultForOneTestRun) = "NOT RUN"
  ∧ overall_outcome [⟨ "PASSED", 1⟩, ⟨ "PASSED", 2⟩] = "PASSED" := by
  constructor
  · exact (c5_overall_outcome []).1 rfl
  · exact (c5_overall_outcome [⟨ "PASSED", 1⟩, ⟨ "PASSED", 2⟩]).2.1 "PASSED"
      (by simp) (by decide)

/-- Claim C9: mean_duration is total_duration divided by the number of
recorded cycles, and 0 for an empty history; for durations 1, 2, 3 it is 2. -/
theorem c9_mean_duration (l : List ResultForOneTestRun) :
    (l = [] → mean_duration l = 0)
  ∧ (l ≠ [] → mean_duration l = total_duration l / (l.length : ℚ))
  ∧ mean_duration [⟨ "PASSED", 1⟩, ⟨ "PASSED", 2⟩, ⟨ "PASSED", 3⟩] = 2 := by
  refine ⟨?_, ?_, ?_⟩
  · intro h
    subst h
    rfl
  · intro h
    rw [mean_duration, if_neg (by simpa using h)]
  · rw [mean_duration, if_neg (by simp)]
    rw [show total_duration [⟨ "PASSED", 1⟩, ⟨ "PASSED", 2⟩, ⟨ "PASSED", 3⟩]
        = (1 : ℚ) + (2 + (3 + 0)) from rfl]
    norm_num

/-- Claim C9 witness: the theorem applied at the empty history and at a
one-entry history. -/
theorem c9_mean_duration_witness :
    mean_duration ([] : List ResultForOneTestRun) = 0
  ∧ mean_duration [⟨ "PASSED", 4⟩] =
      total_duration [⟨ "PASSED", 4⟩] / (([⟨ "PASSED", 4⟩] : List ResultForOneTestRun).length : ℚ) := by
  constructor
  · exact (c9_mean_duration []).1 rfl
  · exact (c9_mean_duration [⟨ "PASSED", 4⟩]).2.1 (by simp)

/-- Claim C8: with failure focus active, the final summary lists exactly the
tests whose overall outcome is FAILED, in order; every other overall outcome
is suppressed. -/
theorem c8_failure_focus_summary (tests : List String) (res : Results) :
    final_summary_tests true tests res
      = tests.filter (fun t => overall_outcome (res t) == "FAILED") := by
  unfold final_summary_tests
  apply List.filter_congr
  intro t _
  cases h : (overall_outcome (res t) == "FAILED") <;> simp [bne, h]


/-- Claim C2: in a failure-focus cycle with a nonempty active list, the new
active set is exactly the subsequence of the previous active list made of
the tests with no entry in the cycle map together with those whose outcome
is not PASSED; consequently a test reported in no cycle keeps an empty
history, ends with overall outcome NOT RUN, and the run still invokes all
requested cycles. -/
theorem c2_failure_focus_retention (cmap : CycleMap) (active : List String)
    (res : Results) (maps : ℕ → CycleMap) (n : ℕ) (tests : List String)
    (t : String) (hmem : t ∈ tests) (hnone : ∀ c, maps c t = none) :
    (active ≠ [] →
      (run_tests_cycle true cmap active res).1
        = active.filter (failure_focus_keeps cmap))
  ∧ (run_tests true maps n tests).1 t = []
  ∧ overall_outcome ((run_tests true maps n tests).1 t) = "NOT RUN"
  ∧ invoked_count true maps n tests = n := by
  have hrun := run_tests_from_never_reported maps t hnone n tests (fun _ => []) 0 0 hmem
  have hhist : (run_tests true maps n tests).1 t = [] := by
    simpa [run_tests] using hrun.1
  refine ⟨?_, hhist, ?_, ?_⟩
  · intro ha
    have hA : active.isEmpty = false := by
      cases active with
      | nil => exact absurd rfl ha
      | cons a l => rfl
    rw [run_tests_cycle_fst true cmap active res hA, if_pos rfl]
    apply List.filter_congr
    intro u _
    cases h : cmap u <;> simp [failure_focus_keeps, h]
  · rw [hhist]
    rfl
  · simpa [invoked_count] using hrun.2

/-- Claim C2 witness: the theorem applied at a concrete cycle and a concrete
run in which the single test never receives a result. -/
theorem c2_failure_focus_retention_witness :
    (run_tests_cycle true (fun _ => none) [ "t"] (fun _ => [])).1
        = [ "t"].filter (failure_focus_keeps (fun _ => none))
  ∧ (run_tests true (fun _ _ => none) 3 [ "t"]).1 "t" = []
  ∧ invoked_count true (fun _ _ => none) 3 [ "t"] = 3 := by
  have h := c2_failure_focus_retention (fun _ => none) [ "t"] (fun _ => [])
    (fun _ _ => none) 3 [ "t"] "t" (by decide) (fun _ => rfl)
  exact ⟨h.1 (by decide), h.2.1, h.2.2.2⟩

/-- Claim C7 counterexample: with the same test spec collected twice, one
cycle appends two history entries for it, so its history length 2 exceeds
the single cycle actually run for it. -/
theorem c7_counterexample :
    ((run_tests false c7_cycle_maps 1 [ "t", "t"]).1 "t").length = 2
  ∧ cycles_run_for false c7_cycle_maps 1 "t" [ "t", "t"] = 1
  ∧ ¬ ((run_tests false c7_cycle_maps 1 [ "t", "t"]).1 "t").length
        ≤ cycles_run_for false c7_cycle_maps 1 "t" [ "t", "t"] :=
  ⟨by decide, by decide, by decide⟩

/-- Claim C7 amended: when the collected test list has no duplicates, every
history length is bounded by the number of cycles actually run for that
test. -/
theorem c7_history_length_bound (ff : Bool) (maps : ℕ → CycleMap) (n : ℕ)
    (tests : List String) (t : String) (hnodup : tests.Nodup) :
    ((run_tests ff maps n tests).1 t).length ≤ cycles_run_for ff maps n t tests := by
  have h := history_length_le ff maps t n tests (fun _ => []) 0 0 hnodup
  simpa [run_tests, cycles_run_for] using h

/-- Claim C7 witness: the bound applied at a concrete duplicate-free run. -/
theorem c7_history_length_bound_witness :
    ([ "t"] : List String).Nodup
  ∧ ((run_tests false c7_cycle_maps 2 [ "t"]).1 "t").length
      ≤ cycles_run_for false c7_cycle_maps 2 "t" [ "t"] :=
  ⟨by decide, c7_history_length_bound false c7_cycle_maps 2 [ "t"] "t" (by decide)⟩

theorem find?_range'_least {p : ℕ → Bool} :
    ∀ (n s i : ℕ), (List.range' s n).find? p = some i →
      p i = true ∧ s ≤ i ∧ i < s + n ∧ ∀ j, s ≤ j → j < i → p j = false := by
  intro n
  induction n with
  | zero =>
    intro s i h
    simp [List.range'] at h
  | succ m ih =>
    intro s i h
    rw [List.range'_succ] at h
    cases hp : p s with
    | true =>
      rw [List.find?_cons_of_pos _ hp] at h
      have hi : s = i := by
        injection h
      subst hi
      exact ⟨hp, Nat.le_refl s, by omega, fun j hj1 hj2 => by omega⟩
    | false =>
      rw [List.find?_cons_of_neg _ (by simp [hp])] at h
      have hres := ih (s + 1) i h
      refine ⟨hres.1, by omega, by omega, ?_⟩
      intro j hj1 hj2
      by_cases hjs : j = s
      · subst hjs
        exact hp
      · exact hres.2.2.2 j (by omega) hj2

theorem find?_range'_total {p : ℕ → Bool} {n s k : ℕ}
    (hk : s ≤ k) (hk2 : k < s + n) (hp : p k = true) :
    ∃ i, (List.range' s n).find? p = some i := by
  cases hfind : (List.range' s n).find? p with
  | some i => exact ⟨i, rfl⟩
  | none =>
    rw [List.find?_eq_none] at hfind
    have hmem : k ∈ List.range' s n := by
      rw [List.mem_range'_1]
      omega
    exact absurd hp (by simpa using hfind k hmem)

theorem compute_module_path_eq (fs : List String) (parts : List String) (k : ℕ)
    (hk1 : 1 ≤ k) (hk2 : k ≤ parts.length)
    (hmem : probe_path (parts.take k) ∈ fs)
    (hmin : ∀ j, 1 ≤ j → probe_path (parts.take j) ∈ fs → k ≤ j) :
    compute_test_spec_module_path_parts fs parts = some (parts.take k) := by
  unfold compute_test_spec_module_path_parts sliced_prefixes
  rw [List.find?_map]
  have hpk : ((fun p => fs.contains (probe_path p)) ∘ fun i => parts.take i) k = true := by
    simpa [Function.comp] using hmem
  obtain ⟨i, hi⟩ := find?_range'_total (s := 1) (n := parts.length) hk1 (by omega) hpk
  have hchar := find?_range'_least parts.length 1 i hi
  have hprobe : probe_path (parts.take i) ∈ fs := by
    simpa [Function.comp] using hchar.1
  have hik : i = k := by
    have h1 : k ≤ i := hmin i hchar.2.1 hprobe
    by_contra hne
    have hlt : k < i := by omega
    have hfalse := hchar.2.2.2 k hk1 hlt
    rw [hpk] at hfalse
    cases hfalse
  rw [hi, hik]
  rfl

/-- Claim C3: when some nonempty prefix of the dot-delimited identifier,
joined with the path separator and suffixed with .py, names an existing
regular file, the translation uses the shortest such prefix as the module
path and appends the remaining parts joined with the nested-selector
separator (so an identifier fully consumed by the module path ends with an
empty trailing selector). -/
theorem c3_shortest_prefix_translation (fs : List String) (test_spec : String)
    (k : ℕ) (hk1 : 1 ≤ k) (hk2 : k ≤ (split_on_dot test_spec).length)
    (hmem : probe_path ((split_on_dot test_spec).take k) ∈ fs)
    (hmin : ∀ j, 1 ≤ j → probe_path ((split_on_dot test_spec).take j) ∈ fs → k ≤ j) :
    convert_jenkins_test_spec_to_pytest_format fs test_spec =
      Except.ok (String.intercalate "/" ((split_on_dot test_spec).take k) ++ ".py"
        ++ "::" ++ String.intercalate "::" ((split_on_dot test_spec).drop k)) := by
  have hc := compute_module_path_eq fs (split_on_dot test_spec) k hk1 hk2 hmem hmin
  unfold convert_jenkins_test_spec_to_pytest_format
  rw [hc]
  have hlen : ((split_on_dot test_spec).take k).length = k := by
    rw [List.length_take]
    omega
  simp only [hlen]

/-- Claim C3 witness: with a module on disk at a/b.py, the identifier
a.b.C.test_x translates via its two-part prefix to a/b.py::C::test_x. -/
theorem c3_shortest_prefix_translation_witness :
    convert_jenkins_test_spec_to_pytest_format [ "a/b.py"] "a.b.C.test_x"
      = Except.ok "a/b.py::C::test_x" := by
  have h := c3_shortest_prefix_translation [ "a/b.py"] "a.b.C.test_x" 2
    (by decide) (by decide) (by decide)
    (by
      intro j hj hp
      match j, hj with
      | 1, _ => exact absurd hp (by decide)
      | (m + 2), _ => omega)
  rw [h]
  rfl

theorem mapM_except_error {α β ε : Type} (f : α → Except ε β) :
    ∀ (l : List α) (a : α), a ∈ l → (∃ e, f a = Except.error e) →
      ∃ e, l.mapM f = Except.error e := by
  intro l
  induction l with
  | nil =>
    intro a ha
    cases ha
  | cons h t ih =>
    intro a ha hfail
    rw [List.mapM_cons]
    cases hh : f h with
    | error e =>
      refine ⟨e, ?_⟩
      rfl
    | ok b =>
      rcases List.mem_cons.mp ha with ha | ha
      · subst ha
        rcases hfail with ⟨e, he⟩
        rw [hh] at he
        cases he
      · obtain ⟨e, hmap⟩ := ih a ha hfail
        refine ⟨e, ?_⟩
        rw [hmap]
        rfl

/-- Claim C4: an identifier none of whose prefixes names an existing file
makes the translation fail with the original identifier parts, and when such
an identifier is among the collected lines, the process exits with status 1
through the dedicated handler for the module-not-found exception. -/
theorem c4_unresolvable_identifier (fs raw : List String) (s : String)
    (ff : Bool) (maps : ℕ → CycleMap) (requested : ℕ) (hs : s ∈ raw)
    (hno : ∀ p ∈ sliced_prefixes (split_on_dot s), probe_path p ∉ fs) :
    convert_jenkins_test_spec_to_pytest_format fs s
        = Except.error (split_on_dot s)
  ∧ main_outcome fs raw ff maps requested = MainOutcome.exitCode 1 := by
  have hcomp : compute_test_spec_module_path_parts fs (split_on_dot s) = none := by
    rw [compute_test_spec_module_path_parts, List.find?_eq_none]
    intro p hp
    simp only [Bool.not_eq_true]
    cases hc : fs.contains (probe_path p) with
    | false => rfl
    | true =>
      exact absurd (by simpa using hc) (hno p hp)
  have hconv : convert_jenkins_test_spec_to_pytest_format fs s
      = Except.error (split_on_dot s) := by
    unfold convert_jenkins_test_spec_to_pytest_format
    rw [hcomp]
  refine ⟨hconv, ?_⟩
  obtain ⟨e, he⟩ := mapM_except_error (convert_jenkins_test_spec_to_pytest_format fs)
    raw s hs ⟨_, hconv⟩
  unfold main_outcome testwang collect_and_run_tests collect_tests
  rw [he]

/-- Claim C4 witness: with an empty filesystem, the identifier x.y is
unresolvable and the process exits with status 1. -/
theorem c4_unresolvable_identifier_witness :
    convert_jenkins_test_spec_to_pytest_format [] "x.y" = Except.error [ "x", "y"]
  ∧ main_outcome [] [ "x.y"] false (fun _ _ => none) 1 = MainOutcome.exitCode 1 := by
  have h := c4_unresolvable_identifier [] [ "x.y"] "x.y" false (fun _ _ => none) 1
    (by decide) (by decide)
  refine ⟨?_, h.2⟩
  rw [h.1]
  rfl

theorem mapM_option_of_pointwise {α β : Type} (f : α → Option β) (g : α → β) :
    ∀ (l : List α), (∀ a ∈ l, f a = some (g a)) → l.mapM f = some (l.map g) := by
  intro l
  induction l with
  | nil =>
    intro _
    rfl
  | cons h t ih =>
    intro hall
    rw [List.mapM_cons, hall h (by simp), ih (fun a ha => hall a (by simp [ha]))]
    rfl

theorem section_duration_eq_spec (j : Json) (hdict : j.isDict = true)
    (hsome : (section_duration j).isSome = true) :
    section_duration j = some (spec_section_duration j) := by
  cases j with
  | obj fields =>
    cases hl : jlookup fields "duration" with
    | none => simp [section_duration, spec_section_duration, hl]
    | some v =>
      cases v with
      | num q => simp [section_duration, spec_section_duration, hl]
      | null => simp [section_duration, hl] at hsome
      | bool b => simp [section_duration, hl] at hsome
      | str s => simp [section_duration, hl] at hsome
      | arr elems => simp [section_duration, hl] at hsome
      | obj fields2 => simp [section_duration, hl] at hsome
  | null => simp [Json.isDict] at hdict
  | bool b => simp [Json.isDict] at hdict
  | num q => simp [Json.isDict] at hdict
  | str s => simp [Json.isDict] at hdict
  | arr elems => simp [Json.isDict] at hdict

/-- Claim C6: a parsed test entry yields its outcome label upper-cased and a
duration equal to the sum over the object-valued fields of their duration
fields, an object-valued field lacking a duration contributing 0. -/
theorem c6_parse_entry (entry : List (String × Json)) (name outcome_label : String)
    (hn : jlookup entry "name" = some (Json.str name))
    (ho : jlookup entry "outcome" = some (Json.str outcome_label))
    (hd : ((entry.map (fun kv => kv.2)).filter Json.isDict).all
            (fun j => (section_duration j).isSome) = true) :
    parse_json_results_one_test entry =
      some (name, ⟨str_upper outcome_label,
        (((entry.map (fun kv => kv.2)).filter Json.isDict).map
          spec_section_duration).sum⟩) := by
  have hmapM : ((entry.map (fun kv => kv.2)).filter Json.isDict).mapM section_duration
      = some (((entry.map (fun kv => kv.2)).filter Json.isDict).map
          spec_section_duration) := by
    apply mapM_option_of_pointwise
    intro j hj
    have hdict : j.isDict = true := List.of_mem_filter hj
    have hsome : (section_duration j).isSome = true := by
      rw [List.all_eq_true] at hd
      exact hd j hj
    exact section_duration_eq_spec j hdict hsome
  unfold parse_json_results_one_test
  rw [hn, ho, hmapM]
  rfl

/-- Claim C6 witness: the entry with two sections each of duration 1.5
parses to outcome PASSED with combined duration 3. -/
theorem c6_parse_entry_witness :
    parse_json_results_one_test c6_example_entry
      = some ( "t", ⟨ "PASSED", 3⟩) := by
  have h := c6_parse_entry c6_example_entry "t" "passed" rfl rfl rfl
  rw [h]
  have hsum : ((c6_example_entry.map (fun kv => kv.2)).filter Json.isDict).map
      spec_section_duration = [3/2, 3/2] := rfl
  have hup : str_upper "passed" = "PASSED" := rfl
  rw [hsum, hup]
  have hs : ([3/2, 3/2] : List ℚ).sum = 3 := by
    rw [List.sum_cons, List.sum_cons, List.sum_nil]
    norm_num
  rw [hs]

/-- Claim C10: when the collected test list is empty, collect_and_run_tests
emits the no-tests-found notification and returns None, and testwang then
fails with a TypeError when unpacking that None into three values, crashing
the process instead of terminating cleanly. -/
theorem c10_empty_collection_type_error (fs raw : List String) (ff : Bool)
    (maps : ℕ → CycleMap) (requested : ℕ)
    (h : collect_tests fs raw = Except.ok []) :
    collect_and_run_tests fs raw ff maps requested
        = Except.ok ([Event.no_tests_found], none)
  ∧ (testwang fs raw ff maps requested).2 = Except.error RunError.typeError
  ∧ main_outcome fs raw ff maps requested = MainOutcome.uncaughtTypeError := by
  have h1 : collect_and_run_tests fs raw ff maps requested
      = Except.ok ([Event.no_tests_found], none) := by
    unfold collect_and_run_tests
    rw [h]
    rfl
  have h2 : (testwang fs raw ff maps requested).2
      = Except.error RunError.typeError := by
    unfold testwang
    rw [h1]
  refine ⟨h1, h2, ?_⟩
  unfold main_outcome
  rw [h2]

/-- Claim C10 witness: the theorem applied at an empty raw test list, whose
collection is empty. -/
theorem c10_empty_collection_type_error_witness :
    collect_and_run_tests [] [] false (fun _ _ => none) 1
        = Except.ok ([Event.no_tests_found], none)
  ∧ main_outcome [] [] false (fun _ _ => none) 1 = MainOutcome.uncaughtTypeError := by
  have h := c10_empty_collection_type_error [] [] false (fun _ _ => none) 1 rfl
  exact ⟨h.1, h.2.2⟩
